import Mathlib

/-!
Verification development for the process-lifecycle and discovery subsystem of
a dev-server supervisor extension (sources: `src/utils.ts`, `src/devServer.ts`,
`src/processManager.ts` (embedded in `extension.ts` bundle), `src/autoKill.ts`,
plus the variant module with `isValidDevCommand`).

Strings from the JavaScript side are embedded as `List Char`.  JavaScript
numbers holding millisecond timestamps are embedded as `Int`; the source's
floating-point divisions by 60000 followed by `>=` comparisons against an
integer threshold are embedded as the exactly equivalent integer comparison
(`elapsed >= threshold * 60000`), which agrees with the rational-arithmetic
reading of the source.
-/

namespace NuxtDev

/-- JS strings are modelled as lists of characters. -/

abbrev JsStr := List Char

/-- Whitespace characters skipped by JavaScript `parseInt`. -/

def isJsWhitespace (c : Char) : Bool :=
  c = ' ' || c = '\t' || c = '\n' || c = '\r' || c = '\x0b' || c = '\x0c'

/-- Numeric value of a run of decimal digit characters (most significant first). -/

def digitsToNat (ds : JsStr) : Nat :=
  ds.foldl (fun acc c => acc * 10 + (c.toNat - 48)) 0

/-- The digit run parsed by `parseInt` after whitespace/sign stripping:
`none` when the string does not begin with a decimal digit (JS `NaN`). -/

def parseDigitRun (s : JsStr) : Option Nat :=
  if (s.takeWhile (fun c => c.isDigit)).isEmpty then none
  else some (digitsToNat (s.takeWhile (fun c => c.isDigit)))

/-- Embedding of JavaScript `parseInt(s, 10)`: skip leading whitespace, accept an
optional sign, then read the maximal leading run of decimal digits; `none` models
`NaN` (no digits found). -/

def parseIntJS (s : JsStr) : Option Int :=
  if (s.dropWhile isJsWhitespace).head? = some '+' then
    (parseDigitRun (s.dropWhile isJsWhitespace).tail).map (fun n => (n : Int))
  else if (s.dropWhile isJsWhitespace).head? = some '-' then
    (parseDigitRun (s.dropWhile isJsWhitespace).tail).map (fun n => -(n : Int))
  else (parseDigitRun (s.dropWhile isJsWhitespace)).map (fun n => (n : Int))

/-- The `Invalid PID: ${pid}` message thrown by `sanitizePid`. -/

def invalidPidMsg (pid : JsStr) : JsStr :=
  "Invalid PID: ".data ++ pid

/-- Embedding of `sanitizePid` (utils.ts): `parseInt(pid, 10)`, throwing
`Invalid PID` when the result is `NaN` or not positive. -/

def sanitizePid (pid : JsStr) : Except JsStr Int :=
  match parseIntJS pid with
  | none => .error (invalidPidMsg pid)
  | some numPid =>
    if numPid ≤ 0 then .error (invalidPidMsg pid)
    else .ok numPid

/-- Characters accepted by the `isValidDevCommand` allow-list regex
`^[a-zA-Z0-9_:-]+$`. -/

def isAllowedCommandChar (c : Char) : Bool :=
  c.isAlpha || c.isDigit || c = '_' || c = ':' || c = '-'

/-- Embedding of `isValidDevCommand` (dev-server module variant): non-empty,
every character in the allow-list, and length under 100. -/

def isValidDevCommand (command : JsStr) : Bool :=
  !command.isEmpty && command.all isAllowedCommandChar && command.length < 100

/-- `startsWithJs s p`: does `s` start with `p`?  Embeds JS `String.startsWith`. -/

def startsWithJs : JsStr → JsStr → Bool
  | _, [] => true
  | [], _ :: _ => false
  | c :: s, p :: ps => c = p && startsWithJs s ps

/-- Embedding of JS `String.replace` with a plain-string pattern: replace the
first occurrence of `pat` (if any) with `repl`. -/

def replaceFirst (pat repl : JsStr) : JsStr → JsStr
  | [] => if startsWithJs [] pat then repl else []
  | c :: rest =>
    if startsWithJs (c :: rest) pat then repl ++ (c :: rest).drop pat.length
    else c :: replaceFirst pat repl rest

/-- Embedding of `formatPathForDisplay` (utils.ts): substitute the home-directory
prefix with `~`.  The home directory is passed explicitly (the source reads it
from the environment). -/

def formatPathForDisplay (homeDir filePath : JsStr) : JsStr :=
  if !homeDir.isEmpty && startsWithJs filePath homeDir then
    replaceFirst homeDir ['~'] filePath
  else filePath

/-- Embedding of `expandPath` (utils.ts): substitute a leading `~` with the home
directory. -/

def expandPath (homeDir filePath : JsStr) : JsStr :=
  if startsWithJs filePath ['~'] && !homeDir.isEmpty then
    replaceFirst ['~'] homeDir filePath
  else filePath

/-- Embedding of `truncate` (utils.ts). -/

def truncate (str : JsStr) (maxLength : Nat) : JsStr :=
  if str.length ≤ maxLength then str
  else str.take (maxLength - 3) ++ ['.', '.', '.']

-- Basic facts about the string helpers.

/-! ## Managed dev-server session (devServer.ts) -/

/-- `DEFAULT_CONFIG.RESTART_DELAY_MS` (constants.ts). -/

def RESTART_DELAY_MS : Nat := 1500

/-- `DEFAULT_CONFIG.STOP_CLEANUP_WAIT_MS` (constants.ts). -/

def STOP_CLEANUP_WAIT_MS : Nat := 1000

/-- `DEFAULT_CONFIG.COMMAND_TRUNCATE_LENGTH` (constants.ts). -/

def COMMAND_TRUNCATE_LENGTH : Nat := 80

/-- `DEFAULT_CONFIG.COMMAND_TRUNCATE_SUFFIX_LENGTH` (constants.ts). -/

def COMMAND_TRUNCATE_SUFFIX_LENGTH : Nat := 77

/-- `http://localhost:<port>` URL string derived from a port. -/

def urlOfPort (port : Nat) : JsStr :=
  ("http://localhost:" ++ toString port).data

/-- The `ManagedServer` record (types.ts / devServer.ts).  The `ChildProcess`
handle is embedded as its observable fields: the (possibly absent) pid and the
`killed` flag. -/

structure ManagedServer where
  pid : Option Nat
  killed : Bool
  workingDir : JsStr
  port : Nat
  url : JsStr
  deriving Repr, DecidableEq

/-- Module state of devServer.ts: the single `managedServer` variable. -/

structure ServerState where
  managedServer : Option ManagedServer
  deriving Repr, DecidableEq

/-- Embedding of `isManagedServerRunning` (devServer.ts). -/

def isManagedServerRunning (st : ServerState) : Bool :=
  match st.managedServer with
  | none => false
  | some ms => !ms.killed

/-- Embedding of `clearManagedServer` (devServer.ts). -/

def clearManagedServer (_st : ServerState) : ServerState :=
  { managedServer := none }

/-- Observable events of the async lifecycle operations, one per awaited
suspension point, tagged by the operation they belong to. -/

inductive Ev
  | stopCalled
  | killedByDir (count : Nat)
  | killedTree (pid : Nat)
  | verified (ok : Bool)
  | stopReturned (result : Bool)
  | slept (ms : Nat)
  | startCalled
  | spawned (pid : Nat)
  | portWaited (result : Option Nat)
  | startReturned (result : Bool)
  deriving Repr, DecidableEq

/-- Events emitted inside `stopDevServer`. -/

def Ev.isStopEv : Ev → Bool
  | .stopCalled | .killedByDir _ | .killedTree _ | .verified _ | .stopReturned _ => true
  | _ => false

/-- Events emitted inside `startDevServer`. -/

def Ev.isStartEv : Ev → Bool
  | .startCalled | .spawned _ | .portWaited _ | .startReturned _ => true
  | _ => false

/-- Result of one embedded async operation: final module state, the trace of
awaited steps it performed, and its boolean return value. -/

structure OpResult where
  state : ServerState
  trace : List Ev
  result : Bool
  deriving Repr, DecidableEq

/-- Environment behaviour observed by one `stopDevServer` run:
how many same-working-directory processes `killProcessesByWorkingDir` reports
killed, whether the `killProcessTree` step throws (its inner `killProcess` throws
when the tracked pid is already gone), and what `verifyProcessTerminated`
returns. -/

structure StopWorld where
  killedByDirCount : Nat
  killTreeThrows : Bool
  verifyResult : Bool
  deriving Repr, DecidableEq

/-- Embedding of `stopDevServer` (devServer.ts): guard on a live managed server,
kill by working directory, kill the process tree, verify termination
(best-effort: a `false` verification only logs), clear `managedServer` on every
path past the guard — including the catch path — and return the success flag. -/

def stopDevServer (w : StopWorld) (st : ServerState) : OpResult :=
  match st.managedServer with
  | none => { state := st, trace := [.stopCalled, .stopReturned false], result := false }
  | some ms =>
    if ms.killed then
      -- `isManagedServerRunning()` is false: warn and return false.
      { state := st, trace := [.stopCalled, .stopReturned false], result := false }
    else
      match ms.pid with
      | none =>
        -- `if (!pid) { managedServer = null; return false; }`
        { state := { managedServer := none }
          trace := [.stopCalled, .stopReturned false], result := false }
      | some pid =>
        if w.killTreeThrows then
          -- the catch branch: clear the reference, report failure
          { state := { managedServer := none }
            trace := [.stopCalled, .killedByDir w.killedByDirCount, .stopReturned false]
            result := false }
        else
          { state := { managedServer := none }
            trace := [.stopCalled, .killedByDir w.killedByDirCount, .killedTree pid,
                      .verified w.verifyResult, .stopReturned true]
            result := true }

/-- Environment behaviour observed by one `startDevServer` run: the workspace
root (none when no folder is open), whether a nuxt config file exists, the pid
assigned by `spawn` (none when falsy), a port opportunistically parsed from the
child's stdout before the wait completes, and the `waitForProcessPort`
outcome. -/

structure StartWorld where
  workspace : Option JsStr
  hasNuxtConfig : Bool
  spawnPid : Option Nat
  stdoutPort : Option Nat
  waitPortResult : Option Nat
  deriving Repr, DecidableEq

/-- Embedding of `startDevServer` (devServer.ts): reject when already running,
require a workspace with a nuxt config, spawn, commit the `managedServer` with
the best-known port, then wait (with timeout) for the verified listening port;
a timeout still returns `true`. -/

def startDevServer (w : StartWorld) (defaultPort : Nat) (st : ServerState) : OpResult :=
  if isManagedServerRunning st then
    { state := st, trace := [.startCalled, .startReturned false], result := false }
  else
    match w.workspace with
    | none => { state := st, trace := [.startCalled, .startReturned false], result := false }
    | some rootPath =>
      if !w.hasNuxtConfig then
        { state := st, trace := [.startCalled, .startReturned false], result := false }
      else
        match w.spawnPid with
        | none => { state := st, trace := [.startCalled, .startReturned false], result := false }
        | some pid =>
          let detectedPort := w.stdoutPort.getD defaultPort
          let committed : ManagedServer :=
            { pid := some pid, killed := false, workingDir := rootPath
              port := detectedPort, url := urlOfPort detectedPort }
          match w.waitPortResult with
          | some actualPort =>
            let final : ManagedServer :=
              { committed with port := actualPort, url := urlOfPort actualPort }
            { state := { managedServer := some final }
              trace := [.startCalled, .spawned pid, .portWaited (some actualPort),
                        .startReturned true]
              result := true }
          | none =>
            { state := { managedServer := some committed }
              trace := [.startCalled, .spawned pid, .portWaited none, .startReturned true]
              result := true }

/-- Embedding of `restartDevServer` (devServer.ts): `await stopDevServer()`,
`await sleep(RESTART_DELAY_MS)`, `return await startDevServer()` — a single
sequential async function with every step awaited. -/

def restartDevServer (ws : StopWorld) (wstart : StartWorld) (defaultPort : Nat)
    (st : ServerState) : OpResult :=
  let stopRes := stopDevServer ws st
  let startRes := startDevServer wstart defaultPort stopRes.state
  { state := startRes.state
    trace := stopRes.trace ++ [.slept RESTART_DELAY_MS] ++ startRes.trace
    result := startRes.result }

/-! ## Process termination (processManager module, bundled in extension.ts) -/

/-- Liveness of host processes as observed by one `killProcess` run: whether the
target exists when the graceful signal is sent, and whether it still exists
after the 500ms grace wait.  `process.kill` throws `ESRCH` on a pid that does
not exist. -/

structure KillWorld where
  aliveAtSignal : Int → Bool
  aliveAfterWait : Int → Bool

/-- The wrapped error message thrown by `killProcess`'s catch block. -/

def failedKillMsg (numPid : Int) : JsStr :=
  ("Failed to kill process " ++ toString numPid).data

/-- Embedding of `killProcess` (processManager): validate the pid, send
`SIGTERM` (throws `ESRCH` when the process does not exist — caught by the outer
catch, which rethrows a wrapped error), wait 500ms, then probe liveness with
signal 0: a live process gets `SIGKILL`, a probe throw means the process died
and is treated as success. -/

def killProcess (w : KillWorld) (pid : JsStr) : Except JsStr Unit :=
  match sanitizePid pid with
  | .error e => .error e
  | .ok numPid =>
    if w.aliveAtSignal numPid then
      -- SIGTERM delivered; after sleep(500) the liveness probe either finds the
      -- process (SIGKILL follows) or throws (already dead): both are success.
      if w.aliveAfterWait numPid then .ok () else .ok ()
    else
      -- SIGTERM threw ESRCH: the catch block wraps and rethrows.
      .error (failedKillMsg numPid)

/-- Embedding of `killProcessTree` (processManager): validate, best-effort
`pkill` of children (errors swallowed), then `killProcess` on the parent. -/

def killProcessTree (w : KillWorld) (parentPid : JsStr) : Except JsStr Unit :=
  match sanitizePid parentPid with
  | .error e => .error e
  | .ok _ => killProcess w parentPid

/-! ## Process discovery (processManager module, bundled in extension.ts) -/

/-- JS `String.trim()`. -/

def trimJs (s : JsStr) : JsStr :=
  ((s.dropWhile isJsWhitespace).reverse.dropWhile isJsWhitespace).reverse

/-- Split a character list at newline separators (JS `split('\n')`). -/

def splitLinesJs (s : JsStr) : List JsStr :=
  s.splitOn '\n'

/-- A discovered process record (`NuxtProcess` in types.ts): pid and port are
kept as the strings parsed from tool output. -/

structure NuxtProc where
  pid : JsStr
  command : JsStr
  workingDir : JsStr
  port : JsStr
  deriving Repr, DecidableEq

/-- Embedding of the per-line regex match `^(\d+)\s+(.+)$` applied to a trimmed
`ps` output line: a maximal leading digit run, at least one whitespace
character, then the non-empty remainder. -/

def parsePsLine (line : JsStr) : Option (JsStr × JsStr) :=
  let t := trimJs line
  let pidDigits := t.takeWhile (fun c => c.isDigit)
  let rest := t.dropWhile (fun c => c.isDigit)
  if pidDigits.isEmpty then none
  else
    let ws := rest.takeWhile isJsWhitespace
    let cmd := rest.dropWhile isJsWhitespace
    if ws.isEmpty || cmd.isEmpty then none
    else some (pidDigits, cmd)

/-- Per-pid probing behaviour observed during one discovery query, plus the
home directory used for display formatting.  `portProbe pid = none` covers both
an `lsof` throw and output with no `LISTEN` match (the source skips the line in
both cases); `cwdProbe pid = none` models a throw of the working-directory
query. -/

structure ProbeWorld where
  homeDir : JsStr
  portProbe : JsStr → Option JsStr
  cwdProbe : JsStr → Option JsStr

/-- The command-line field truncation applied when storing a record. -/

def truncateCommand (fullCommand : JsStr) : JsStr :=
  if fullCommand.length > COMMAND_TRUNCATE_LENGTH then
    fullCommand.take COMMAND_TRUNCATE_SUFFIX_LENGTH ++ ['.', '.', '.']
  else fullCommand

/-- The body of the discovery loop of `getRunningNuxtProcesses`: walk the `ps`
lines, keep the first occurrence of each pid (`processMap` keyed by pid),
drop lines whose pid fails validation or has no listening port, and resolve the
working directory best-effort (`Unknown` on a throw or empty output). -/

def collectProcs (w : ProbeWorld) : List JsStr → List (JsStr × NuxtProc) →
    List (JsStr × NuxtProc)
  | [], acc => acc
  | line :: rest, acc =>
    match parsePsLine line with
    | none => collectProcs w rest acc
    | some (pid, fullCommand) =>
      if pid ∈ acc.map Prod.fst then collectProcs w rest acc
      else
        match sanitizePid pid with
        | .error _ => collectProcs w rest acc
        | .ok _ =>
          match w.portProbe pid with
          | none => collectProcs w rest acc
          | some port =>
            let workingDir :=
              match w.cwdProbe pid with
              | none => "Unknown".data
              | some out =>
                let t := trimJs out
                if t.isEmpty then "Unknown".data else t
            let entry : NuxtProc :=
              { pid := pid
                command := truncateCommand fullCommand
                workingDir := formatPathForDisplay w.homeDir workingDir
                port := port }
            collectProcs w rest (acc ++ [(pid, entry)])

/-- Module state of the detection-failure tracking in processManager. -/

structure DetectState where
  consecutiveFailures : Nat
  lastWarningTime : Int
  deriving Repr, DecidableEq

/-- `WARNING_THROTTLE_MS` (processManager). -/

def WARNING_THROTTLE_MS : Int := 60000

/-- Outcome of the `ps | grep | grep -v grep` listing step: normal stdout, the
expected exit-code-1 "no matches" error from `grep`, or any other tool error. -/

inductive PsOutcome
  | ok (stdout : JsStr)
  | noMatches
  | toolError
  deriving Repr, DecidableEq

/-- Result of one discovery query: the records, the updated failure-tracking
state, and whether a user-visible detection warning was surfaced. -/

structure DetectResult where
  procs : List NuxtProc
  state : DetectState
  warned : Bool

/-- Embedding of `getRunningNuxtProcesses` (processManager): grep exit code 1 is
a normal empty result that resets the failure counter; an empty stdout likewise;
a successful listing resets the counter and returns the deduplicated records;
any other error returns empty, increments the counter, and — at three or more
consecutive failures and at most once per throttle window — surfaces a
warning. -/

def getRunningNuxtProcesses (w : ProbeWorld) (psOutcome : PsOutcome) (now : Int)
    (st : DetectState) : DetectResult :=
  match psOutcome with
  | .noMatches =>
    { procs := [], state := { st with consecutiveFailures := 0 }, warned := false }
  | .toolError =>
    let failures := st.consecutiveFailures + 1
    if failures ≥ 3 ∧ now - st.lastWarningTime > WARNING_THROTTLE_MS then
      { procs := [], state := { consecutiveFailures := failures, lastWarningTime := now }
        warned := true }
    else
      { procs := [], state := { st with consecutiveFailures := failures }, warned := false }
  | .ok stdout =>
    if (trimJs stdout).isEmpty then
      { procs := [], state := { st with consecutiveFailures := 0 }, warned := false }
    else
      { procs := (collectProcs w (splitLinesJs (trimJs stdout)) []).map Prod.snd
        state := { st with consecutiveFailures := 0 }
        warned := false }

/-! ## Auto-kill policy engine (autoKill.ts) -/

/-- The auto-kill slice of the extension configuration (utils.ts `getConfig`):
`autoKillTimeout`/`autoKillIdleTime` in minutes, 0 meaning disabled. -/

structure AutoKillConfig where
  autoKillTimeout : Nat
  autoKillIdleTime : Nat
  enableAutoCleanup : Bool
  maxExtraServers : Nat
  deriving Repr, DecidableEq

/-- The `autoKillState` tracking timestamps (autoKill.ts). -/

structure AutoKillState where
  startTime : Int
  lastActivity : Int
  deriving Repr, DecidableEq

/-- User-visible warnings the tick can emit via `showWarning`. -/

inductive TickWarning
  | runtimeTimeout
  | idleTimeout
  deriving Repr, DecidableEq

/-- Observable outcome of one `checkAutoKillConditions` tick. -/

structure TickResult where
  state : ServerState
  stoppedManaged : Bool
  warnings : List TickWarning
  killed : List NuxtProc
  extrasQueried : Bool
  deriving Repr, DecidableEq

/-- `managedServer?.process.pid?.toString()` (autoKill.ts). -/

def managedPidStr (st : ServerState) : Option JsStr :=
  match st.managedServer with
  | none => none
  | some ms => ms.pid.map (fun n => (toString n).data)

/-- `allProcesses.filter(p => p.pid !== managedPid)`: when `managedPid` is
`undefined` every string pid differs from it, so nothing is filtered out. -/

def extraProcessesOf (st : ServerState) (allProcesses : List NuxtProc) :
    List NuxtProc :=
  match managedPidStr st with
  | none => allProcesses
  | some mp => allProcesses.filter (fun p => p.pid ≠ mp)

/-- `parseInt(p.pid, 10)` as used by the sort comparator (`NaN` collapses
to 0; discovery pids are digit strings, so this is exact there). -/

def pidNum (s : JsStr) : Int :=
  (parseIntJS s).getD 0

/-- The ascending-pid comparator `(a, b) => parseInt(a.pid) - parseInt(b.pid)`. -/

def procPidLe (a b : NuxtProc) : Prop :=
  pidNum a.pid ≤ pidNum b.pid

instance : DecidableRel procPidLe := fun a b =>
  inferInstanceAs (Decidable (pidNum a.pid ≤ pidNum b.pid))

instance : IsTotal NuxtProc procPidLe :=
  ⟨fun a b => le_total (pidNum a.pid) (pidNum b.pid)⟩

instance : IsTrans NuxtProc procPidLe :=
  ⟨fun _ _ _ hab hbc => le_trans hab hbc⟩

/-- Embedding of `checkAutoKillConditions` (autoKill.ts).  The runtime/idle
minute computations `(now - t) / (1000*60) >= threshold` are embedded as the
equivalent integer comparison `now - t ≥ threshold * 60000`.  `killOk pid`
tells whether the `killProcess` call for that pid resolves (`false` models the
caught throw, which skips that pid's notification).  In the
`enableAutoCleanup`-only branch the source writes a debug log and emits no
user-visible notification. -/

def checkAutoKillConditions (cfg : AutoKillConfig) (stopW : StopWorld)
    (killOk : JsStr → Bool) (allProcesses : List NuxtProc) (now : Int)
    (track : AutoKillState) (st : ServerState) : TickResult :=
  if ¬ isManagedServerRunning st then
    { state := st, stoppedManaged := false, warnings := [], killed := []
      extrasQueried := false }
  else if 0 < cfg.autoKillTimeout ∧ 0 < track.startTime ∧
      now - track.startTime ≥ (cfg.autoKillTimeout : Int) * 60000 then
    { state := (stopDevServer stopW st).state, stoppedManaged := true
      warnings := [.runtimeTimeout], killed := [], extrasQueried := false }
  else if 0 < cfg.autoKillIdleTime ∧ 0 < track.lastActivity ∧
      now - track.lastActivity ≥ (cfg.autoKillIdleTime : Int) * 60000 then
    { state := (stopDevServer stopW st).state, stoppedManaged := true
      warnings := [.idleTimeout], killed := [], extrasQueried := false }
  else if 0 < cfg.maxExtraServers ∨ cfg.enableAutoCleanup then
    if 0 < (extraProcessesOf st allProcesses).length then
      -- `enableAutoCleanup` here only logs; nothing user-visible happens.
      if 0 < cfg.maxExtraServers ∧
          cfg.maxExtraServers < (extraProcessesOf st allProcesses).length then
        { state := st, stoppedManaged := false, warnings := []
          killed := ((List.insertionSort procPidLe
              (extraProcessesOf st allProcesses)).take
              ((extraProcessesOf st allProcesses).length - cfg.maxExtraServers)).filter
            (fun p => killOk p.pid)
          extrasQueried := true }
      else
        { state := st, stoppedManaged := false, warnings := [], killed := []
          extrasQueried := true }
    else
      { state := st, stoppedManaged := false, warnings := [], killed := []
        extrasQueried := true }
  else
    { state := st, stoppedManaged := false, warnings := [], killed := []
      extrasQueried := false }

/-- Iterate the 30-second evaluation tick over a list of clock readings,
threading the managed-server state. -/

def runTicks (cfg : AutoKillConfig) (stopW : StopWorld) (killOk : JsStr → Bool)
    (allProcesses : List NuxtProc) (track : AutoKillState) :
    List Int → ServerState → List TickResult
  | [], _ => []
  | t :: ts, st =>
    let r := checkAutoKillConditions cfg stopW killOk allProcesses t track st
    r :: runTicks cfg stopW killOk allProcesses track ts r.state

theorem startsWithJs_iff_append (s p : JsStr) :
    startsWithJs s p = true ↔ ∃ t, s = p ++ t := by
  induction p generalizing s with
  | nil => simp [startsWithJs]
  | cons c ps ih =>
    cases s with
    | nil => simp [startsWithJs]
    | cons a s' =>
      simp only [startsWithJs, Bool.and_eq_true, decide_eq_true_eq, ih]
      constructor
      · rintro ⟨rfl, t, rfl⟩
        exact ⟨t, rfl⟩
      · rintro ⟨t, ht⟩
        cases ht
        exact ⟨rfl, t, rfl⟩

theorem replaceFirst_of_startsWith (pat repl s : JsStr)
    (h : startsWithJs s pat = true) :
    replaceFirst pat repl s = repl ++ s.drop pat.length := by
  cases s with
  | nil =>
    rcases (startsWithJs_iff_append [] pat).mp h with ⟨t, ht⟩
    have hpat : pat = [] := by
      cases pat with
      | nil => rfl
      | cons c cs => simp at ht
    subst hpat
    simp [replaceFirst, startsWithJs]
  | cons c rest =>
    simp [replaceFirst, h]

theorem stop_trace_all_stopEv (w : StopWorld) (st : ServerState) :
    ∀ e ∈ (stopDevServer w st).trace, e.isStopEv = true := by
  intro e he
  unfold stopDevServer at he
  rcases st with ⟨ms⟩
  cases ms with
  | none => simp at he; rcases he with rfl | rfl <;> rfl
  | some m =>
    by_cases hk : m.killed <;> simp [hk] at he
    · rcases he with rfl | rfl <;> rfl
    · cases hp : m.pid with
      | none => simp [hp] at he; rcases he with rfl | rfl <;> rfl
      | some pid =>
        by_cases ht : w.killTreeThrows <;> simp [hp, ht] at he
        · rcases he with rfl | rfl | rfl <;> rfl
        · rcases he with rfl | rfl | rfl | rfl | rfl <;> rfl

theorem start_trace_all_startEv (w : StartWorld) (dp : Nat) (st : ServerState) :
    ∀ e ∈ (startDevServer w dp st).trace, e.isStartEv = true := by
  intro e he
  unfold startDevServer at he
  by_cases hr : isManagedServerRunning st <;> simp [hr] at he
  · rcases he with rfl | rfl <;> rfl
  · cases hw : w.workspace with
    | none => simp [hw] at he; rcases he with rfl | rfl <;> rfl
    | some root =>
      by_cases hc : w.hasNuxtConfig <;> simp [hw, hc] at he
      · cases hs : w.spawnPid with
        | none => simp [hs] at he; rcases he with rfl | rfl <;> rfl
        | some pid =>
          cases hwait : w.waitPortResult with
          | none => simp [hs, hwait] at he; rcases he with rfl | rfl | rfl | rfl <;> rfl
          | some p => simp [hs, hwait] at he; rcases he with rfl | rfl | rfl | rfl <;> rfl
      · rcases he with rfl | rfl <;> rfl

/-- In a concatenation `A ++ B` where no element of `A` satisfies `q` and no
element of `B` satisfies `p`, every `p`-index precedes every `q`-index. -/

theorem index_order_of_append {α : Type} (A B : List α) (p q : α → Bool)
    (hA : ∀ e ∈ A, q e = false) (hB : ∀ e ∈ B, p e = false)
    (i j : Nat) (hi : i < (A ++ B).length) (hj : j < (A ++ B).length)
    (hpi : p ((A ++ B).get ⟨i, hi⟩) = true)
    (hqj : q ((A ++ B).get ⟨j, hj⟩) = true) : i < j := by
  have hiA : i < A.length := by
    by_contra hge
    push_neg at hge
    have hmem : (A ++ B).get ⟨i, hi⟩ ∈ B := by
      rw [List.get_eq_getElem, List.getElem_append_right hge]
      exact List.getElem_mem _
    rw [hB _ hmem] at hpi
    exact Bool.false_ne_true hpi
  have hjB : A.length ≤ j := by
    by_contra hlt
    push_neg at hlt
    have hmem : (A ++ B).get ⟨j, hj⟩ ∈ A := by
      rw [List.get_eq_getElem, List.getElem_append_left hlt]
      exact List.getElem_mem _
    rw [hA _ hmem] at hqj
    exact Bool.false_ne_true hqj
  omega

theorem stopEv_not_startEv (e : Ev) (h : e.isStopEv = true) : e.isStartEv = false := by
  cases e <;> first | rfl | exact absurd h (by simp [Ev.isStopEv])

theorem startEv_not_stopEv (e : Ev) (h : e.isStartEv = true) : e.isStopEv = false := by
  cases e <;> first | rfl | exact absurd h (by simp [Ev.isStartEv])

/-- C1: `restartDevServer()` is a single sequential async operation: its trace is
exactly the fully-awaited `stopDevServer()` trace, then the fixed
`RESTART_DELAY_MS` settling delay, then the fully-awaited `startDevServer()`
trace; it returns `startDevServer()`'s result; and no step of the start
operation occurs before any step of the stop operation. -/

theorem restartDevServer_sequential (ws : StopWorld) (wstart : StartWorld)
    (dp : Nat) (st : ServerState) :
    (restartDevServer ws wstart dp st).trace =
      (stopDevServer ws st).trace ++ [Ev.slept RESTART_DELAY_MS] ++
        (startDevServer wstart dp (stopDevServer ws st).state).trace ∧
    (restartDevServer ws wstart dp st).result =
      (startDevServer wstart dp (stopDevServer ws st).state).result ∧
    ∀ i j (hi : i < (restartDevServer ws wstart dp st).trace.length)
      (hj : j < (restartDevServer ws wstart dp st).trace.length),
      ((restartDevServer ws wstart dp st).trace.get ⟨i, hi⟩).isStopEv = true →
      ((restartDevServer ws wstart dp st).trace.get ⟨j, hj⟩).isStartEv = true →
      i < j := by
  refine ⟨rfl, rfl, ?_⟩
  intro i j hi hj hpi hqj
  refine index_order_of_append
    ((stopDevServer ws st).trace ++ [Ev.slept RESTART_DELAY_MS])
    (startDevServer wstart dp (stopDevServer ws st).state).trace
    Ev.isStopEv Ev.isStartEv ?_ ?_ i j hi hj hpi hqj
  · intro e he
    rcases List.mem_append.mp he with h1 | h2
    · exact stopEv_not_startEv e (stop_trace_all_stopEv ws st e h1)
    · rcases List.mem_singleton.mp h2 with rfl
      rfl
  · intro e he
    exact startEv_not_stopEv e (start_trace_all_startEv wstart dp _ e he)

/-- Witness for C1 at a concrete world and state: the stop event at index 0
precedes the start event at index 6 in the restart trace. -/

theorem restartDevServer_sequential_witness : (0 : Nat) < 6 :=
  (restartDevServer_sequential ⟨0, false, true⟩
      ⟨some ['/', 'a'], true, some 42, none, some 3000⟩ 3000
      ⟨some ⟨some 7, false, ['/', 'a'], 3000, []⟩⟩).2.2 0 6
    (by decide) (by decide) (by decide) (by decide)

theorem stopDevServer_state_none (w : StopWorld) (st : ServerState)
    (h : isManagedServerRunning st = true) :
    (stopDevServer w st).state.managedServer = none := by
  unfold stopDevServer
  rcases st with ⟨ms⟩
  cases ms with
  | none => simp [isManagedServerRunning] at h
  | some m =>
    have hk : m.killed = false := by
      simpa [isManagedServerRunning] using h
    cases hp : m.pid with
    | none => simp [hk, hp]
    | some pid =>
      by_cases ht : w.killTreeThrows <;> simp [hk, hp, ht]

/-- C8: whenever `stopDevServer()` is invoked with a live managed server, the
`managedServer` reference is `null` when the call returns, in every outcome
(success, unverified termination, and the thrown-error catch path). -/

theorem stopDevServer_clears_reference (w : StopWorld) (st : ServerState)
    (h : isManagedServerRunning st = true) :
    (stopDevServer w st).state.managedServer = none :=
  stopDevServer_state_none w st h

/-- Witness for C8: a concrete live managed server is cleared by a stop whose
verification times out (`verifyResult = false`). -/

theorem stopDevServer_clears_reference_witness :
    isManagedServerRunning ⟨some ⟨some 7, false, ['/', 'a'], 3000, []⟩⟩ = true ∧
    (stopDevServer ⟨2, false, false⟩
        ⟨some ⟨some 7, false, ['/', 'a'], 3000, []⟩⟩).state.managedServer = none :=
  ⟨by decide, stopDevServer_clears_reference ⟨2, false, false⟩ _ (by decide)⟩

/-- C2 counterexample: in a world where no process exists, `killProcess` on the
already-dead pid `"12345"` throws the wrapped kill error instead of returning
success — the claim that signaling an already-dead pid is treated as success is
false on the code (the initial `SIGTERM` throws `ESRCH` outside the inner
liveness-probe try block). -/

theorem killProcess_already_dead_counterexample :
    (⟨fun _ => false, fun _ => false⟩ : KillWorld).aliveAtSignal 12345 = false ∧
    killProcess ⟨fun _ => false, fun _ => false⟩ ['1', '2', '3', '4', '5'] =
      .error (failedKillMsg 12345) :=
  ⟨rfl, rfl⟩

/-- C2 amended: for a valid pid, `killProcess` succeeds exactly when the process
is alive at the moment the graceful signal is sent — a process that dies during
the 500ms grace wait is treated as success, but a pid that is already dead when
`killProcess` is invoked makes the signal throw `ESRCH` and the call reports a
wrapped error rather than success. -/

theorem killProcess_success_iff_alive (w : KillWorld) (pid : JsStr) (n : Int)
    (hn : sanitizePid pid = .ok n) :
    (killProcess w pid = .ok () ↔ w.aliveAtSignal n = true) ∧
    (w.aliveAtSignal n = false → killProcess w pid = .error (failedKillMsg n)) := by
  unfold killProcess
  rw [hn]
  by_cases h : w.aliveAtSignal n <;> simp [h]

/-- Witness for C2's amended theorem: pid `"42"` is alive at signal time and
dies during the grace wait; `killProcess` returns success. -/

theorem killProcess_success_iff_alive_witness :
    sanitizePid ['4', '2'] = .ok 42 ∧
    killProcess ⟨fun _ => true, fun _ => false⟩ ['4', '2'] = .ok () :=
  ⟨rfl,
    ((killProcess_success_iff_alive ⟨fun _ => true, fun _ => false⟩ ['4', '2'] 42
      rfl).1).mpr rfl⟩

/-- C4: the discovery query distinguishes "no matches" from "detection failed":
the grep-exit-1 outcome yields an empty result, resets the consecutive-failure
counter to zero and raises no warning, whereas any other tool error yields an
empty result, increments the counter, and surfaces a warning exactly when the
incremented counter has reached 3 and the 60-second throttle window has
passed. -/

theorem getRunningNuxtProcesses_failure_handling (w : ProbeWorld) (now : Int)
    (st : DetectState) :
    ((getRunningNuxtProcesses w .noMatches now st).procs = [] ∧
      (getRunningNuxtProcesses w .noMatches now st).state.consecutiveFailures = 0 ∧
      (getRunningNuxtProcesses w .noMatches now st).warned = false) ∧
    ((getRunningNuxtProcesses w .toolError now st).procs = [] ∧
      (getRunningNuxtProcesses w .toolError now st).state.consecutiveFailures =
        st.consecutiveFailures + 1 ∧
      ((getRunningNuxtProcesses w .toolError now st).warned = true ↔
        st.consecutiveFailures + 1 ≥ 3 ∧
          now - st.lastWarningTime > WARNING_THROTTLE_MS)) := by
  have key : getRunningNuxtProcesses w .toolError now st =
      if st.consecutiveFailures + 1 ≥ 3 ∧
          now - st.lastWarningTime > WARNING_THROTTLE_MS then
        ⟨[], ⟨st.consecutiveFailures + 1, now⟩, true⟩
      else ⟨[], ⟨st.consecutiveFailures + 1, st.lastWarningTime⟩, false⟩ := rfl
  refine ⟨⟨rfl, rfl, rfl⟩, ?_⟩
  rw [key]
  by_cases h : st.consecutiveFailures + 1 ≥ 3 ∧
      now - st.lastWarningTime > WARNING_THROTTLE_MS
  · rw [if_pos h]
    exact ⟨rfl, rfl, ⟨fun _ => h, fun _ => rfl⟩⟩
  · rw [if_neg h]
    exact ⟨rfl, rfl, ⟨fun hf => absurd hf (by simp), fun hc => absurd hc h⟩⟩

theorem collectProcs_snd_pid (w : ProbeWorld) (lines : List JsStr) :
    ∀ acc, (∀ kv ∈ acc, (Prod.snd kv).pid = kv.1) →
      ∀ kv ∈ collectProcs w lines acc, (Prod.snd kv).pid = kv.1 := by
  induction lines with
  | nil =>
    intro acc hacc kv hkv
    exact hacc kv (by simpa [collectProcs] using hkv)
  | cons line rest ih =>
    intro acc hacc kv hkv
    simp only [collectProcs] at hkv
    cases hp : parsePsLine line with
    | none =>
      simp only [hp] at hkv
      exact ih acc hacc kv hkv
    | some pr =>
      obtain ⟨pid, cmd⟩ := pr
      simp only [hp] at hkv
      by_cases hmem : pid ∈ acc.map Prod.fst
      · rw [if_pos hmem] at hkv
        exact ih acc hacc kv hkv
      · rw [if_neg hmem] at hkv
        cases hs : sanitizePid pid with
        | error e =>
          simp only [hs] at hkv
          exact ih acc hacc kv hkv
        | ok m =>
          simp only [hs] at hkv
          cases hq : w.portProbe pid with
          | none =>
            simp only [hq] at hkv
            exact ih acc hacc kv hkv
          | some port =>
            simp only [hq] at hkv
            refine ih _ ?_ kv hkv
            intro kv2 hkv2
            rcases List.mem_append.mp hkv2 with h1 | h2
            · exact hacc kv2 h1
            · rcases List.mem_singleton.mp h2 with rfl
              rfl

theorem collectProcs_keys_nodup (w : ProbeWorld) (lines : List JsStr) :
    ∀ acc, (acc.map Prod.fst).Nodup →
      ((collectProcs w lines acc).map Prod.fst).Nodup := by
  induction lines with
  | nil =>
    intro acc hacc
    simpa [collectProcs] using hacc
  | cons line rest ih =>
    intro acc hacc
    simp only [collectProcs]
    cases hp : parsePsLine line with
    | none =>
      simp only [hp]
      exact ih acc hacc
    | some pr =>
      obtain ⟨pid, cmd⟩ := pr
      simp only [hp]
      by_cases hmem : pid ∈ acc.map Prod.fst
      · rw [if_pos hmem]
        exact ih acc hacc
      · rw [if_neg hmem]
        cases hs : sanitizePid pid with
        | error e =>
          simp only [hs]
          exact ih acc hacc
        | ok m =>
          simp only [hs]
          cases hq : w.portProbe pid with
          | none =>
            simp only [hq]
            exact ih acc hacc
          | some port =>
            simp only [hq]
            refine ih _ ?_
            rw [List.map_append, List.nodup_append]
            refine ⟨hacc, by simp, ?_⟩
            intro a ha hb
            have hap : a = pid := by simpa using hb
            subst hap
            exact hmem ha

/-- C9: every result sequence of a single discovery query contains at most one
record per pid: the records are pairwise distinct on the `pid` field. -/

theorem getRunningNuxtProcesses_pid_unique (w : ProbeWorld) (ps : PsOutcome)
    (now : Int) (st : DetectState) :
    (getRunningNuxtProcesses w ps now st).procs.Pairwise
      (fun a b => a.pid ≠ b.pid) := by
  cases ps with
  | noMatches => exact List.Pairwise.nil
  | toolError =>
    have key : getRunningNuxtProcesses w .toolError now st =
        if st.consecutiveFailures + 1 ≥ 3 ∧
            now - st.lastWarningTime > WARNING_THROTTLE_MS then
          ⟨[], ⟨st.consecutiveFailures + 1, now⟩, true⟩
        else ⟨[], ⟨st.consecutiveFailures + 1, st.lastWarningTime⟩, false⟩ := rfl
    rw [key]
    by_cases h : st.consecutiveFailures + 1 ≥ 3 ∧
        now - st.lastWarningTime > WARNING_THROTTLE_MS
    · rw [if_pos h]
      exact List.Pairwise.nil
    · rw [if_neg h]
      exact List.Pairwise.nil
  | ok stdout =>
    have key : getRunningNuxtProcesses w (.ok stdout) now st =
        if (trimJs stdout).isEmpty then
          ⟨[], ⟨0, st.lastWarningTime⟩, false⟩
        else
          ⟨(collectProcs w (splitLinesJs (trimJs stdout)) []).map Prod.snd,
            ⟨0, st.lastWarningTime⟩, false⟩ := rfl
    rw [key]
    by_cases he : (trimJs stdout).isEmpty = true
    · rw [if_pos he]
      exact List.Pairwise.nil
    · rw [if_neg he]
      have hnd := collectProcs_keys_nodup w (splitLinesJs (trimJs stdout)) []
        (by simp)
      have hpid := collectProcs_snd_pid w (splitLinesJs (trimJs stdout)) []
        (by simp)
      have h1 : (collectProcs w (splitLinesJs (trimJs stdout)) []).Pairwise
          (fun a b => a.1 ≠ b.1) := List.pairwise_map.mp hnd
      rw [List.pairwise_map]
      refine h1.imp_of_mem ?_
      intro a b ha hb hne
      rw [hpid a ha, hpid b hb]
      exact hne

theorem notRunning_of_none (st : ServerState) (h : st.managedServer = none) :
    isManagedServerRunning st = false := by
  rcases st with ⟨ms⟩
  cases h
  rfl

theorem tick_dead (cfg : AutoKillConfig) (stopW : StopWorld)
    (killOk : JsStr → Bool) (procs : List NuxtProc) (now : Int)
    (track : AutoKillState) (st : ServerState)
    (h : isManagedServerRunning st = false) :
    checkAutoKillConditions cfg stopW killOk procs now track st =
      { state := st, stoppedManaged := false, warnings := [], killed := []
        extrasQueried := false } := by
  unfold checkAutoKillConditions
  rw [if_pos (by simp [h])]

theorem tick_fires_runtime (cfg : AutoKillConfig) (stopW : StopWorld)
    (killOk : JsStr → Bool) (procs : List NuxtProc) (now : Int)
    (track : AutoKillState) (st : ServerState)
    (hrun : isManagedServerRunning st = true)
    (hcond : 0 < cfg.autoKillTimeout ∧ 0 < track.startTime ∧
      now - track.startTime ≥ (cfg.autoKillTimeout : Int) * 60000) :
    checkAutoKillConditions cfg stopW killOk procs now track st =
      { state := (stopDevServer stopW st).state, stoppedManaged := true
        warnings := [.runtimeTimeout], killed := [], extrasQueried := false } := by
  unfold checkAutoKillConditions
  rw [if_neg (by simp [hrun]), if_pos hcond]

theorem tick_runtime_not_yet (cfg : AutoKillConfig) (stopW : StopWorld)
    (killOk : JsStr → Bool) (procs : List NuxtProc) (now : Int)
    (track : AutoKillState) (st : ServerState)
    (hrun : isManagedServerRunning st = true)
    (hI : cfg.autoKillIdleTime = 0)
    (hlt : now - track.startTime < (cfg.autoKillTimeout : Int) * 60000) :
    (checkAutoKillConditions cfg stopW killOk procs now track st).stoppedManaged =
      false ∧
    (checkAutoKillConditions cfg stopW killOk procs now track st).state = st := by
  unfold checkAutoKillConditions
  rw [if_neg (by simp [hrun])]
  rw [if_neg (by rintro ⟨-, -, hge⟩; exact absurd hge (not_le.mpr hlt))]
  rw [if_neg (by rintro ⟨h1, -⟩; rw [hI] at h1; exact absurd h1 (lt_irrefl 0))]
  split_ifs <;> exact ⟨rfl, rfl⟩

theorem tick_extras_kill_eq (cfg : AutoKillConfig) (stopW : StopWorld)
    (killOk : JsStr → Bool) (procs : List NuxtProc) (now : Int)
    (track : AutoKillState) (st : ServerState)
    (hrun : isManagedServerRunning st = true)
    (hT : cfg.autoKillTimeout = 0) (hI : cfg.autoKillIdleTime = 0)
    (hmax : 0 < cfg.maxExtraServers)
    (hlen : cfg.maxExtraServers < (extraProcessesOf st procs).length) :
    checkAutoKillConditions cfg stopW killOk procs now track st =
      { state := st, stoppedManaged := false, warnings := []
        killed := ((List.insertionSort procPidLe
            (extraProcessesOf st procs)).take
            ((extraProcessesOf st procs).length - cfg.maxExtraServers)).filter
          (fun p => killOk p.pid)
        extrasQueried := true } := by
  unfold checkAutoKillConditions
  rw [if_neg (by simp [hrun])]
  rw [if_neg (by rintro ⟨h1, -⟩; rw [hT] at h1; exact absurd h1 (lt_irrefl 0))]
  rw [if_neg (by rintro ⟨h1, -⟩; rw [hI] at h1; exact absurd h1 (lt_irrefl 0))]
  rw [if_pos (Or.inl hmax)]
  rw [if_pos (lt_trans hmax hlen)]
  rw [if_pos ⟨hmax, hlen⟩]

/-- C7 (code bug): on a tick with `enableAutoCleanup` enabled, one unmanaged
extra server present, and the `maxExtraServers` limit not exceeded
(`maxExtraServers = 0` is unlimited), the current code terminates no process but
also emits no user-visible warning — the cleanup branch only writes a debug log
(its own comment says "showing warning about extra servers"), whereas the spec
and the pre-refactor version of this module emit a single aggregate warning. -/

theorem autoKill_cleanup_warning_missing :
    checkAutoKillConditions ⟨0, 0, true, 0⟩ ⟨0, false, true⟩ (fun _ => true)
        [⟨['2', '0', '0'], ['n'], ['/', 'x'], ['3', '0', '0', '0']⟩] 0 ⟨1, 1⟩
        ⟨some ⟨some 100, false, ['/', 'a'], 3000, []⟩⟩ =
      { state := ⟨some ⟨some 100, false, ['/', 'a'], 3000, []⟩⟩
        stoppedManaged := false, warnings := [], killed := []
        extrasQueried := true } := by
  decide

/-- C6: when `maxExtraServers > 0` and the non-managed instances (with distinct
numeric pids) exceed the limit, a tick whose runtime/idle checks are disabled
terminates exactly `count − maxExtraServers` of them — those with the lowest
pid values — leaving exactly `maxExtraServers` extras, and does not stop the
managed server. -/

theorem autoKill_trims_lowest_pids (cfg : AutoKillConfig) (stopW : StopWorld)
    (killOk : JsStr → Bool) (procs : List NuxtProc) (now : Int)
    (track : AutoKillState) (st : ServerState)
    (hrun : isManagedServerRunning st = true)
    (hT : cfg.autoKillTimeout = 0) (hI : cfg.autoKillIdleTime = 0)
    (hmax : 0 < cfg.maxExtraServers)
    (hlen : cfg.maxExtraServers < (extraProcessesOf st procs).length)
    (hnodup : ((extraProcessesOf st procs).map (fun p => pidNum p.pid)).Nodup)
    (hkill : ∀ s, killOk s = true) :
    ∃ rest,
      (checkAutoKillConditions cfg stopW killOk procs now track st).killed.length =
        (extraProcessesOf st procs).length - cfg.maxExtraServers ∧
      rest.length = cfg.maxExtraServers ∧
      ((checkAutoKillConditions cfg stopW killOk procs now track st).killed ++
        rest).Perm (extraProcessesOf st procs) ∧
      (∀ a ∈ (checkAutoKillConditions cfg stopW killOk procs now track st).killed,
        ∀ b ∈ rest, pidNum a.pid < pidNum b.pid) ∧
      (checkAutoKillConditions cfg stopW killOk procs now track st).stoppedManaged =
        false := by
  have htick := tick_extras_kill_eq cfg stopW killOk procs now track st hrun hT hI
    hmax hlen
  have hperm : (List.insertionSort procPidLe (extraProcessesOf st procs)).Perm
      (extraProcessesOf st procs) := List.perm_insertionSort procPidLe _
  have hsorted : (List.insertionSort procPidLe
      (extraProcessesOf st procs)).Pairwise procPidLe :=
    List.sorted_insertionSort procPidLe _
  have hlenS : (List.insertionSort procPidLe (extraProcessesOf st procs)).length =
      (extraProcessesOf st procs).length := hperm.length_eq
  have hfl : ((List.insertionSort procPidLe (extraProcessesOf st procs)).take
        ((extraProcessesOf st procs).length - cfg.maxExtraServers)).filter
        (fun p => killOk p.pid) =
      (List.insertionSort procPidLe (extraProcessesOf st procs)).take
        ((extraProcessesOf st procs).length - cfg.maxExtraServers) :=
    List.filter_eq_self.mpr (fun a _ => hkill a.pid)
  have hnodS : ((List.insertionSort procPidLe
        (extraProcessesOf st procs)).map (fun p => pidNum p.pid)).Nodup :=
    ((hperm.map (fun p => pidNum p.pid)).nodup_iff).mpr hnodup
  refine ⟨(List.insertionSort procPidLe (extraProcessesOf st procs)).drop
    ((extraProcessesOf st procs).length - cfg.maxExtraServers), ?_, ?_, ?_, ?_, ?_⟩
  · rw [htick]
    simp only [hfl, List.length_take, hlenS]
    omega
  · rw [List.length_drop, hlenS]
    omega
  · rw [htick]
    simp only [hfl]
    rw [List.take_append_drop]
    exact hperm
  · rw [htick]
    simp only [hfl]
    intro a ha b hb
    have hle : procPidLe a b := by
      have h2 : ((List.insertionSort procPidLe (extraProcessesOf st procs)).take
            ((extraProcessesOf st procs).length - cfg.maxExtraServers) ++
          (List.insertionSort procPidLe (extraProcessesOf st procs)).drop
            ((extraProcessesOf st procs).length -
              cfg.maxExtraServers)).Pairwise procPidLe := by
        rw [List.take_append_drop]
        exact hsorted
      exact (List.pairwise_append.mp h2).2.2 a ha b hb
    have hne : pidNum a.pid ≠ pidNum b.pid := by
      have hsplit := hnodS
      rw [← List.take_append_drop
        ((extraProcessesOf st procs).length - cfg.maxExtraServers)
        (List.insertionSort procPidLe (extraProcessesOf st procs)),
        List.map_append, List.nodup_append] at hsplit
      intro heq
      exact hsplit.2.2 (List.mem_map_of_mem _ ha)
        (heq ▸ List.mem_map_of_mem _ hb)
    exact lt_of_le_of_ne hle hne
  · rw [htick]

/-- Witness for C6: with `maxExtraServers = 2` and five extras with pids
10, 20, 30, 40, 50, exactly three are killed. -/

theorem autoKill_trims_lowest_pids_witness :
    (checkAutoKillConditions ⟨0, 0, false, 2⟩ ⟨0, false, true⟩ (fun _ => true)
        [⟨['1', '0'], [], [], []⟩, ⟨['2', '0'], [], [], []⟩,
          ⟨['3', '0'], [], [], []⟩, ⟨['4', '0'], [], [], []⟩,
          ⟨['5', '0'], [], [], []⟩] 0 ⟨1, 1⟩
        ⟨some ⟨some 999, false, ['/', 'a'], 3000, []⟩⟩).killed.length = 3 := by
  obtain ⟨rest, h1, -, -, -, -⟩ := autoKill_trims_lowest_pids ⟨0, 0, false, 2⟩
    ⟨0, false, true⟩ (fun _ => true)
    [⟨['1', '0'], [], [], []⟩, ⟨['2', '0'], [], [], []⟩, ⟨['3', '0'], [], [], []⟩,
      ⟨['4', '0'], [], [], []⟩, ⟨['5', '0'], [], [], []⟩] 0 ⟨1, 1⟩
    ⟨some ⟨some 999, false, ['/', 'a'], 3000, []⟩⟩ (by decide) rfl rfl (by decide)
    (by decide) (by decide) (fun _ => rfl)
  exact h1.trans (by decide)

theorem runTicks_get_zero (cfg : AutoKillConfig) (stopW : StopWorld)
    (killOk : JsStr → Bool) (procs : List NuxtProc) (track : AutoKillState)
    (t : Int) (ts : List Int) (st : ServerState) :
    (runTicks cfg stopW killOk procs track (t :: ts) st)[0]? =
      some (checkAutoKillConditions cfg stopW killOk procs t track st) := by
  simp [runTicks]

theorem runTicks_get_succ (cfg : AutoKillConfig) (stopW : StopWorld)
    (killOk : JsStr → Bool) (procs : List NuxtProc) (track : AutoKillState)
    (t : Int) (ts : List Int) (st : ServerState) (j : Nat) :
    (runTicks cfg stopW killOk procs track (t :: ts) st)[j + 1]? =
      (runTicks cfg stopW killOk procs track ts
        (checkAutoKillConditions cfg stopW killOk procs t track st).state)[j]? := by
  simp [runTicks]

theorem runTicks_dead (cfg : AutoKillConfig) (stopW : StopWorld)
    (killOk : JsStr → Bool) (procs : List NuxtProc) (track : AutoKillState) :
    ∀ (ts : List Int) (st : ServerState), isManagedServerRunning st = false →
      ∀ (i : Nat), ((runTicks cfg stopW killOk procs track ts st)[i]?).map
        TickResult.stoppedManaged ≠ some true := by
  intro ts
  induction ts with
  | nil =>
    intro st h i
    simp [runTicks]
  | cons t ts ih =>
    intro st h i
    cases i with
    | zero =>
      rw [runTicks_get_zero, tick_dead cfg stopW killOk procs t track st h]
      simp
    | succ j =>
      rw [runTicks_get_succ, tick_dead cfg stopW killOk procs t track st h]
      exact ih st h j

/-- C5: with a positive runtime timeout, idle checking disabled, a live managed
server, and a recorded start timestamp, iterating the evaluation tick over any
sequence of clock readings stops the managed server — emitting the runtime
warning and skipping the extra-server checks of that tick — exactly at the
first tick whose elapsed time since start reaches the threshold, and at no
other tick. -/

theorem autoKill_runtime_stops_first_tick (cfg : AutoKillConfig)
    (stopW : StopWorld) (killOk : JsStr → Bool) (procs : List NuxtProc)
    (track : AutoKillState) (st : ServerState) (times : List Int)
    (hT : 0 < cfg.autoKillTimeout) (hI : cfg.autoKillIdleTime = 0)
    (hrun : isManagedServerRunning st = true) (hs : 0 < track.startTime) :
    ∀ (i : Nat) (t : Int), times[i]? = some t →
      ((runTicks cfg stopW killOk procs track times st)[i]? =
          some ({ state := (stopDevServer stopW st).state, stoppedManaged := true
                  warnings := [.runtimeTimeout], killed := []
                  extrasQueried := false } : TickResult) ↔
        (t - track.startTime ≥ (cfg.autoKillTimeout : Int) * 60000 ∧
          ∀ (j : Nat) (u : Int), j < i → times[j]? = some u →
            u - track.startTime < (cfg.autoKillTimeout : Int) * 60000)) := by
  suffices h : ∀ (ts : List Int) (st : ServerState),
      isManagedServerRunning st = true →
      ∀ (i : Nat) (t : Int), ts[i]? = some t →
        ((runTicks cfg stopW killOk procs track ts st)[i]? =
            some ({ state := (stopDevServer stopW st).state, stoppedManaged := true
                    warnings := [.runtimeTimeout], killed := []
                    extrasQueried := false } : TickResult) ↔
          (t - track.startTime ≥ (cfg.autoKillTimeout : Int) * 60000 ∧
            ∀ (j : Nat) (u : Int), j < i → ts[j]? = some u →
              u - track.startTime < (cfg.autoKillTimeout : Int) * 60000)) by
    exact h times st hrun
  intro ts
  induction ts with
  | nil =>
    intro st _ i t ht
    simp at ht
  | cons t0 ts ih =>
    intro st hrunSt i t ht
    by_cases hc : t0 - track.startTime ≥ (cfg.autoKillTimeout : Int) * 60000
    · have hfire := tick_fires_runtime cfg stopW killOk procs t0 track st hrunSt
        ⟨hT, hs, hc⟩
      cases i with
      | zero =>
        have htt : t0 = t := by simpa using ht
        subst htt
        constructor
        · intro _
          exact ⟨hc, fun j u hj _ => absurd hj (Nat.not_lt_zero j)⟩
        · intro _
          rw [runTicks_get_zero, hfire]
      | succ j =>
        have hdead : isManagedServerRunning
            (checkAutoKillConditions cfg stopW killOk procs t0 track st).state =
              false := by
          rw [hfire]
          exact notRunning_of_none _ (stopDevServer_state_none stopW st hrunSt)
        constructor
        · intro hl
          rw [runTicks_get_succ] at hl
          have hmap : ((runTicks cfg stopW killOk procs track ts
              (checkAutoKillConditions cfg stopW killOk procs t0 track
                st).state)[j]?).map TickResult.stoppedManaged = some true := by
            rw [hl]
            rfl
          exact absurd hmap (runTicks_dead cfg stopW killOk procs track ts _ hdead j)
        · rintro ⟨-, hall⟩
          exfalso
          have h0 := hall 0 t0 (Nat.succ_pos j) (by simp)
          exact absurd hc (not_le.mpr h0)
    · have hnf := tick_runtime_not_yet cfg stopW killOk procs t0 track st hrunSt hI
        (lt_of_not_ge hc)
      cases i with
      | zero =>
        have htt : t0 = t := by simpa using ht
        subst htt
        constructor
        · intro hl
          exfalso
          rw [runTicks_get_zero] at hl
          have hb := hnf.1
          rw [Option.some_inj.mp hl] at hb
          exact Bool.true_eq_false.mp hb
        · rintro ⟨hge, -⟩
          exact absurd hge hc
      | succ j =>
        have ht2 : ts[j]? = some t := by simpa using ht
        have hih := ih st hrunSt j t ht2
        rw [runTicks_get_succ, hnf.2]
        constructor
        · intro hl
          obtain ⟨hge, hall⟩ := hih.mp hl
          refine ⟨hge, ?_⟩
          intro j2 u hj2 hu
          cases j2 with
          | zero =>
            have huu : t0 = u := by simpa using hu
            subst huu
            exact lt_of_not_ge hc
          | succ k =>
            exact hall k u (Nat.lt_of_succ_lt_succ hj2) (by simpa using hu)
        · rintro ⟨hge, hall⟩
          exact hih.mpr ⟨hge, fun k u hk hu =>
            hall (k + 1) u (Nat.succ_lt_succ hk) (by simpa using hu)⟩

/-- Witness for C5: with a 5-minute timeout and start time 1000ms, ticks at
200000, 301000 and 400000ms stop the server exactly at the second tick
(elapsed 300000ms = 5 minutes). -/

theorem autoKill_runtime_stops_first_tick_witness :
    (runTicks ⟨5, 0, false, 0⟩ ⟨0, false, true⟩ (fun _ => true) [] ⟨1000, 0⟩
        [200000, 301000, 400000] ⟨some ⟨some 7, false, [], 3000, []⟩⟩)[1]? =
      some { state := (stopDevServer ⟨0, false, true⟩
                ⟨some ⟨some 7, false, [], 3000, []⟩⟩).state
             stoppedManaged := true, warnings := [.runtimeTimeout], killed := []
             extrasQueried := false } :=
  (autoKill_runtime_stops_first_tick ⟨5, 0, false, 0⟩ ⟨0, false, true⟩
      (fun _ => true) [] ⟨1000, 0⟩ ⟨some ⟨some 7, false, [], 3000, []⟩⟩
      [200000, 301000, 400000] (by decide) rfl (by decide) (by decide) 1 301000
      rfl).mpr
    ⟨by decide, by
      intro j u hj hu
      have hj0 : j = 0 := Nat.lt_one_iff.mp hj
      subst hj0
      have huu : (200000 : Int) = u := by simpa using hu
      rw [← huu]
      decide⟩

/-! ## Sanitizer and path-display theorems -/

theorem not_ws_of_digit (c : Char) (h : c.isDigit = true) :
    isJsWhitespace c = false := by
  unfold isJsWhitespace
  by_contra hw
  simp only [Bool.not_eq_false, Bool.or_eq_true, decide_eq_true_eq] at hw
  rcases hw with ((((h1 | h2) | h3) | h4) | h5) | h6 <;>
    first
    | (subst h1; exact absurd h (by decide))
    | (subst h2; exact absurd h (by decide))
    | (subst h3; exact absurd h (by decide))
    | (subst h4; exact absurd h (by decide))
    | (subst h5; exact absurd h (by decide))
    | (subst h6; exact absurd h (by decide))

theorem takeWhile_append_of_all (p : Char → Bool) :
    ∀ (ds rest : JsStr), (∀ c ∈ ds, p c = true) →
      (∀ c, rest.head? = some c → p c = false) →
      (ds ++ rest).takeWhile p = ds := by
  intro ds
  induction ds with
  | nil =>
    intro rest _ hr
    cases rest with
    | nil => rfl
    | cons r rs =>
      rw [List.nil_append, List.takeWhile_cons,
        if_neg (by rw [hr r rfl]; exact Bool.false_ne_true)]
  | cons d ds ih =>
    intro rest hall hr
    rw [List.cons_append, List.takeWhile_cons,
      if_pos (hall d (List.mem_cons_self d ds))]
    rw [ih rest (fun c hc => hall c (List.mem_cons_of_mem d hc)) hr]

theorem sanitizePid_eq_of_parse (pid : JsStr) (v : Int)
    (h : parseIntJS pid = some v) :
    sanitizePid pid = if v ≤ 0 then .error (invalidPidMsg pid) else .ok v := by
  unfold sanitizePid
  rw [h]

theorem sanitizePid_digit_prefix (ds rest : JsStr) (hne : ds ≠ [])
    (hdig : ∀ c ∈ ds, c.isDigit = true) (hpos : 0 < digitsToNat ds)
    (hrest : ∀ c, rest.head? = some c → c.isDigit = false) :
    sanitizePid (ds ++ rest) = .ok (digitsToNat ds) := by
  cases ds with
  | nil => exact absurd rfl hne
  | cons d ds1 =>
    have hd : d.isDigit = true := hdig d (List.mem_cons_self d ds1)
    have hdw : (d :: ds1 ++ rest).dropWhile isJsWhitespace = d :: (ds1 ++ rest) := by
      rw [List.cons_append, List.dropWhile_cons,
        if_neg (by rw [not_ws_of_digit d hd]; exact Bool.false_ne_true)]
    have hparse : parseIntJS (d :: ds1 ++ rest) =
        some ((digitsToNat (d :: ds1) : Int)) := by
      unfold parseIntJS
      rw [hdw, List.head?_cons]
      rw [if_neg (by
        intro h2
        rw [Option.some.injEq] at h2
        rw [h2] at hd
        exact absurd hd (by decide))]
      rw [if_neg (by
        intro h2
        rw [Option.some.injEq] at h2
        rw [h2] at hd
        exact absurd hd (by decide))]
      unfold parseDigitRun
      rw [← List.cons_append, takeWhile_append_of_all _ (d :: ds1) rest hdig hrest]
      rw [if_neg (by simp)]
      rfl
    rw [sanitizePid_eq_of_parse _ _ hparse]
    rw [if_neg (by
      intro hle
      have hlt : (0 : Int) < (digitsToNat (d :: ds1) : Int) := by exact_mod_cast hpos
      exact absurd hle (not_le.mpr hlt))]

/-- C3 counterexample: `sanitizePid` does not reject every string containing a
character outside the digit allow-list — `"12;x"` contains `';'` yet
`sanitizePid` returns 12 instead of throwing, because `parseInt` silently stops
at the first non-digit. -/

theorem sanitizePid_counterexample :
    (';' ∈ (['1', '2', ';', 'x'] : JsStr)) ∧ Char.isDigit ';' = false ∧
    sanitizePid ['1', '2', ';', 'x'] = .ok 12 := by
  refine ⟨by decide, by decide, rfl⟩

/-- C3 amended: `isValidDevCommand` rejects every string containing a character
outside its allow-list and accepts every non-empty allow-listed string shorter
than 100 characters; `sanitizePid`, however, only rejects strings whose
`parseInt` value is `NaN` or non-positive — any string whose leading digit run
(no sign, no leading whitespace) denotes a positive number is accepted with the
trailing characters ignored, and for a pure digit string the denoted value is
returned. -/

theorem sanitize_validate_amended :
    (∀ s : JsStr, (∃ c ∈ s, isAllowedCommandChar c = false) →
      isValidDevCommand s = false) ∧
    (∀ s : JsStr, s ≠ [] → s.length < 100 →
      (∀ c ∈ s, isAllowedCommandChar c = true) → isValidDevCommand s = true) ∧
    (∀ ds rest : JsStr, ds ≠ [] → (∀ c ∈ ds, c.isDigit = true) →
      0 < digitsToNat ds → (∀ c, rest.head? = some c → c.isDigit = false) →
      sanitizePid (ds ++ rest) = .ok (digitsToNat ds)) ∧
    (∀ s : JsStr, parseIntJS s = none → sanitizePid s = .error (invalidPidMsg s)) ∧
    (∀ (s : JsStr) (v : Int), parseIntJS s = some v → v ≤ 0 →
      sanitizePid s = .error (invalidPidMsg s)) := by
  refine ⟨?_, ?_, sanitizePid_digit_prefix, ?_, ?_⟩
  · rintro s ⟨c, hc, hbad⟩
    have hall : s.all isAllowedCommandChar = false := by
      by_contra h2
      rw [Bool.not_eq_false] at h2
      exact absurd (List.all_eq_true.mp h2 c hc) (by rw [hbad]; exact Bool.false_ne_true)
    unfold isValidDevCommand
    rw [hall]
    simp
  · intro s hne hlen hall
    unfold isValidDevCommand
    rw [List.all_eq_true.mpr hall]
    cases s with
    | nil => exact absurd rfl hne
    | cons a l =>
      simp only [List.length_cons] at hlen
      simp [hlen]
  · intro s h
    unfold sanitizePid
    rw [h]
  · intro s v h hle
    rw [sanitizePid_eq_of_parse s v h, if_pos hle]

/-- Witness for C3's amended theorem: `"dev"` is a valid dev command,
`"12;x"` sanitizes to 12, and `"abc"` is rejected by `sanitizePid`. -/

theorem sanitize_validate_amended_witness :
    isValidDevCommand ['d', 'e', 'v'] = true ∧
    sanitizePid ['1', '2', ';', 'x'] = .ok 12 ∧
    sanitizePid ['a', 'b', 'c'] = .error (invalidPidMsg ['a', 'b', 'c']) := by
  refine ⟨sanitize_validate_amended.2.1 ['d', 'e', 'v'] (by decide) (by decide)
    (by decide), ?_, sanitize_validate_amended.2.2.2.1 ['a', 'b', 'c'] rfl⟩
  have h := sanitize_validate_amended.2.2.1 ['1', '2'] [';', 'x'] (by decide)
    (by decide) (by decide) (by decide)
  exact h

/-- C10: path display round-trips with expansion: with a non-empty home
directory, `expandPath` undoes `formatPathForDisplay` on every path that starts
with the home directory, and `formatPathForDisplay` leaves every other path
unchanged. -/

theorem formatPathForDisplay_roundTrip (homeDir : JsStr) (hne : homeDir ≠ []) :
    (∀ p, startsWithJs p homeDir = true →
      expandPath homeDir (formatPathForDisplay homeDir p) = p) ∧
    (∀ p, startsWithJs p homeDir = false → formatPathForDisplay homeDir p = p) := by
  have hnotEmpty : homeDir.isEmpty = false := by
    cases homeDir with
    | nil => exact absurd rfl hne
    | cons a l => rfl
  constructor
  · intro p hpre
    obtain ⟨t, rfl⟩ := (startsWithJs_iff_append p homeDir).mp hpre
    unfold formatPathForDisplay
    rw [if_pos (by rw [hnotEmpty, hpre]; rfl)]
    rw [replaceFirst_of_startsWith homeDir ['~'] _ hpre]
    rw [List.drop_left]
    unfold expandPath
    rw [if_pos (by rw [hnotEmpty]; simp [startsWithJs])]
    rw [replaceFirst_of_startsWith ['~'] homeDir (['~'] ++ t)
      (by simp [startsWithJs])]
    rfl
  · intro p hpre
    unfold formatPathForDisplay
    rw [if_neg (by rw [hpre]; simp)]

/-- Witness for C10 at home directory `"/h"`: `"/h/x"` round-trips and `"/q"`
is left unchanged. -/

theorem formatPathForDisplay_roundTrip_witness :
    expandPath ['/', 'h'] (formatPathForDisplay ['/', 'h'] ['/', 'h', '/', 'x']) =
      ['/', 'h', '/', 'x'] ∧
    formatPathForDisplay ['/', 'h'] ['/', 'q'] = ['/', 'q'] :=
  ⟨(formatPathForDisplay_roundTrip ['/', 'h'] (by decide)).1 ['/', 'h', '/', 'x']
      (by decide),
    (formatPathForDisplay_roundTrip ['/', 'h'] (by decide)).2 ['/', 'q'] (by decide)⟩

end NuxtDev

